import Mathlib

/-!
Verification development for the zenith-meeting-minutes-ai single-page
application. The definitions below are a shallow embedding of the three
source files:

- `App.tsx` — the application component: the mutable state container
  (state tag, error, result, fileName), the upload handler
  `handleFileUpload`, the reset handlers, `downloadMarkdown`, and the
  rendering of each state;
- `services/geminiService.ts` — `analyzeAudio`: the inference call, its
  declared response schema, the empty-response check and the
  `JSON.parse` cast;
- `types.ts` — `ActionItem`, `AnalysisResult`, `AppState`.

Event-driven behaviour (FileReader callbacks, promise settlement, button
clicks) is modelled as a step function over an explicit system state
processing a list of events. One point of JavaScript semantics matters
throughout and is recorded where used: an exception raised inside an
asynchronous callback (the `reader.onload` async function or the
`reader.onerror` event handler) is NOT caught by the `try/catch` of
`handleFileUpload`, because that handler has already returned by the
time the callback runs; such an exception is an unhandled rejection or
an uncaught event-handler error, and no state update of the component
takes place.
-/

namespace ZMM

/-- The `AppState` enum from types.ts (TRANSCRIBING is declared but never used). -/
inductive AppState where
  | IDLE
  | UPLOADING
  | TRANSCRIBING
  | ANALYZING
  | COMPLETED
  | ERROR
deriving DecidableEq, Repr

/-- The sentiment union type of `AnalysisResult` in types.ts. -/
inductive Sentiment where
  | Positive
  | Neutral
  | Negative
deriving DecidableEq, Repr

/-- The string a `Sentiment` value interpolates to in a template literal. -/
def sentimentText : Sentiment → String
  | .Positive => "Positive"
  | .Neutral => "Neutral"
  | .Negative => "Negative"

/-- The `ActionItem` interface from types.ts. -/
structure ActionItem where
  task : String
  assignee : String
deriving DecidableEq, Repr

/-- The `AnalysisResult` interface from types.ts. -/
structure AnalysisResult where
  transcription : String
  executiveSummary : String
  actionItems : List ActionItem
  sentiment : Sentiment
  sentimentReasoning : String
deriving DecidableEq, Repr

/-- A browser `File`: name, size in bytes, MIME type reported by the
browser (possibly empty), and contents as a byte list (each entry is
assumed below 256; the base64 encoder masks accordingly). -/
structure File where
  name : String
  size : Nat
  type : String
  data : List Nat
deriving DecidableEq, Repr

/-- One invocation of `analyzeAudio` as issued by the `reader.onload`
callback: the base64 payload (`none` models `undefined`), the MIME type
argument, and — as trace bookkeeping only — the file the call was made
for. -/
structure InferenceCall where
  file : File
  data : Option String
  mimeType : String
deriving DecidableEq, Repr

/-- The state container of the `App` component (App.tsx lines 20-23):
`useState` hooks for state, error, result and fileName. -/
structure AppComponent where
  state : AppState
  error : Option String
  result : Option AnalysisResult
  fileName : Option String
deriving DecidableEq, Repr

/-- The whole interactive system: the component state plus the pending
asynchronous operations (an in-flight `FileReader` and an awaited
`analyzeAudio` promise) and a log of every inference call issued. -/
structure Sys where
  app : AppComponent
  pendingRead : Option File
  pendingInference : Option InferenceCall
  inferenceCalls : List InferenceCall
deriving DecidableEq, Repr

/-- External events the system reacts to. -/
inductive Event where
  | select (f : File)
  | readDone (dataUrl : String)
  | readFail
  | inferOk (r : AnalysisResult)
  | inferFail (msg : String)
  | reset
deriving DecidableEq, Repr

/-- The error message set by the size check of `handleFileUpload`
(App.tsx line 32). -/
def sizeErrorMsg : String := "File is too large. Please select an audio file under 20MB."

/-- JavaScript `String.prototype.split` with a one-character separator,
on the character list of the string. -/
def splitOnChar (sep : Char) : List Char → List (List Char)
  | [] => [[]]
  | c :: cs =>
    match splitOnChar sep cs with
    | [] => [[]]
    | r :: rs => if c = sep then [] :: r :: rs else (c :: r) :: rs

/-- One step of the system. Each branch mirrors a handler of App.tsx:

- `select`: `handleFileUpload` (lines 26-60). The file input exists only
  in the IDLE view (line 131). The size check (lines 31-35) runs
  synchronously and sets error and ERROR before any reader or network
  activity; otherwise fileName, UPLOADING and a null error are set and
  `reader.readAsDataURL(file)` starts a read (modelled by `pendingRead`).
- `readDone`: the `reader.onload` callback (lines 43-51) up to and
  including the `analyzeAudio` call: extract `split(',')[1]` of the data
  URL, compute the MIME fallback, set ANALYZING, issue the call.
- `readFail`: `reader.onerror` (lines 52-54) throws, but the enclosing
  `try/catch` exited when `handleFileUpload` returned, so the throw is an
  uncaught event-handler error and no component state changes.
- `inferOk`: the rest of the onload callback: `setResult`,
  `setState(COMPLETED)`.
- `inferFail`: a rejection of `analyzeAudio` rejects the async onload
  callback; nothing awaits that promise, so the rejection is unhandled
  and no component state changes (the catch block of lines 56-59 only
  covers the synchronous part of `handleFileUpload`).
- `reset`: the Try Again button (line 229) and the Upload New File
  button (line 336), both rendered only in ERROR resp. COMPLETED, call
  `setState(AppState.IDLE)` and nothing else. -/
def step (s : Sys) : Event → Sys
  | .select f =>
    if s.app.state = AppState.IDLE then
      if f.size > 20 * 1024 * 1024 then
        { s with app := { s.app with error := some sizeErrorMsg, state := AppState.ERROR } }
      else
        { s with
            app := { s.app with fileName := some f.name, state := AppState.UPLOADING, error := none },
            pendingRead := some f }
    else s
  | .readDone dataUrl =>
    match s.pendingRead with
    | none => s
    | some f =>
      let base64Data : Option String := ((splitOnChar ',' dataUrl.data).get? 1).map (fun cs => String.mk cs)
      let mimeType : String := if f.type = "" then "audio/mpeg" else f.type
      let call : InferenceCall := { file := f, data := base64Data, mimeType := mimeType }
      { app := { s.app with state := AppState.ANALYZING },
        pendingRead := none,
        pendingInference := some call,
        inferenceCalls := s.inferenceCalls ++ [call] }
  | .readFail =>
    match s.pendingRead with
    | none => s
    | some _ => { s with pendingRead := none }
  | .inferOk r =>
    match s.pendingInference with
    | none => s
    | some _ =>
      { s with
          app := { s.app with result := some r, state := AppState.COMPLETED },
          pendingInference := none }
  | .inferFail _ =>
    match s.pendingInference with
    | none => s
    | some _ => { s with pendingInference := none }
  | .reset =>
    if s.app.state = AppState.ERROR ∨ s.app.state = AppState.COMPLETED then
      { s with app := { s.app with state := AppState.IDLE } }
    else s

/-- The initial system: all hooks at their initial values, nothing
pending. -/
def initialSys : Sys :=
  { app := { state := AppState.IDLE, error := none, result := none, fileName := none },
    pendingRead := none,
    pendingInference := none,
    inferenceCalls := [] }

/-- Run a list of events from the initial system. -/
def run (evts : List Event) : Sys := evts.foldl step initialSys

/-- A system state is reachable when some event sequence produces it. -/
def Reachable (s : Sys) : Prop := ∃ evts : List Event, run evts = s

/-- The invariant maintained by every handler: COMPLETED was always
entered with a result, ERROR with an error message, a pending read is
always for a size-checked file, and every inference call ever issued
was for a size-checked file. -/
def SysInv (s : Sys) : Prop :=
  (s.app.state = AppState.COMPLETED → s.app.result.isSome = true) ∧
  (s.app.state = AppState.ERROR → s.app.error.isSome = true) ∧
  (∀ f, s.pendingRead = some f → f.size ≤ 20 * 1024 * 1024) ∧
  (∀ c ∈ s.inferenceCalls, c.file.size ≤ 20 * 1024 * 1024)

/-- What the presentation layer currently shows (a pure function of the
component state, per the render of App.tsx): the error text appears only
in the ERROR view (line 227), the results dashboard only when the state
is COMPLETED and a result is present (line 238), the file name only in
the progress view (line 211) and the completed view (line 333). -/
structure Rendered where
  showsError : Option String
  showsResult : Option AnalysisResult
  showsFileName : Option String
deriving DecidableEq, Repr

/-- The render function of the `App` component, restricted to the three
pieces of data it can display. -/
def render (app : AppComponent) : Rendered :=
  { showsError := if app.state = AppState.ERROR then app.error else none,
    showsResult := if app.state = AppState.COMPLETED then app.result else none,
    showsFileName :=
      if app.state = AppState.UPLOADING ∨ app.state = AppState.ANALYZING ∨ app.state = AppState.COMPLETED
      then app.fileName else none }

/-- The `response.text` check of `analyzeAudio` (geminiService lines
55-56): `if (!text) throw new Error("No response from AI")`. The
response text is `none` when the API object has no text
(`undefined`); the JavaScript falsiness test also fires on the empty
string. -/
def responseTextGate (text : Option String) : Except String String :=
  match text with
  | none => Except.error "No response from AI"
  | some t => if t = "" then Except.error "No response from AI" else Except.ok t

/-! ## Markdown export (`downloadMarkdown`, App.tsx lines 62-90) -/

/-- The whitespace characters stripped by JavaScript
`String.prototype.trim`: the WhiteSpace and LineTerminator code points. -/
def isJsWs (c : Char) : Bool :=
  [9, 10, 11, 12, 13, 32, 160, 5760,
   8192, 8193, 8194, 8195, 8196, 8197, 8198, 8199, 8200, 8201, 8202,
   8232, 8233, 8239, 8287, 12288, 65279].contains c.toNat

/-- Strip leading and trailing JavaScript whitespace from a character
list. -/
def jsTrimChars (l : List Char) : List Char :=
  ((l.dropWhile isJsWs).reverse.dropWhile isJsWs).reverse

/-- JavaScript `String.prototype.trim`. -/
def jsTrim (s : String) : String := String.mk (jsTrimChars s.data)

/-- How a possibly-null string renders inside a template literal:
JavaScript stringifies `null` to the text "null". -/
def jsTemplate : Option String → String
  | none => "null"
  | some s => s

/-- The Markdown body built by `downloadMarkdown` (App.tsx lines 64-79):
the exact template literal, then `.trim()`. The template ends with a
newline and four spaces before the closing backtick. -/
def markdownContent (fileName : Option String) (r : AnalysisResult) : String :=
  jsTrim ("\n# Audio Analysis: " ++ jsTemplate fileName
    ++ "\n\n## Executive Summary\n" ++ r.executiveSummary
    ++ "\n\n## Sentiment Analysis\n**Tone:** " ++ sentimentText r.sentiment
    ++ "\n**Reasoning:** " ++ r.sentimentReasoning
    ++ "\n\n## Action Items\n"
    ++ String.intercalate "\n"
         (r.actionItems.map (fun item =>
            "- [ ] **" ++ item.task ++ "** (Assignee: " ++ item.assignee ++ ")"))
    ++ "\n\n## Full Transcription\n" ++ r.transcription
    ++ "\n    ")

/-- The download file name (App.tsx line 85):
`${fileName?.split('.')[0] || 'analysis'}_report.md`. Optional chaining
yields `undefined` for a null fileName; `undefined` and the empty string
are both falsy, selecting the fallback stem analysis. -/
def downloadName (fileName : Option String) : String :=
  (match fileName with
   | none => "analysis"
   | some n =>
     let stem : List Char := (splitOnChar '.' n.data).headD []
     if stem = [] then "analysis" else String.mk stem)
  ++ "_report.md"

/-- A browser download triggered through a temporary anchor element. -/
structure Download where
  name : String
  content : String
deriving DecidableEq, Repr

/-- The `downloadMarkdown` handler (App.tsx lines 62-90): an early return when no
result is present, otherwise it builds the Markdown body and triggers a
download named by `downloadName`; the component state is never
modified. -/
def downloadMarkdown (app : AppComponent) : AppComponent × Option Download :=
  match app.result with
  | none => (app, none)
  | some result =>
      (app, some { name := downloadName app.fileName,
                   content := markdownContent app.fileName result })

/-- A string contains each listed substring, in the listed order. -/
def ContainsInOrder : List Char → List (List Char) → Prop
  | _, [] => True
  | s, h :: rest => ∃ a b, s = a ++ h ++ b ∧ ContainsInOrder b rest

/-- Modelled from the spec: the generated file name is
`<original-basename>_report.md`, the basename being the original name
with its extension removed — everything before the last dot (the whole
name when there is no dot). -/
def spec_basename (n : String) : String :=
  let parts := splitOnChar '.' n.data
  if parts.length ≤ 1 then n else String.mk (List.intercalate ['.'] parts.dropLast)

/-! ## The JSON value model for the inference response

`JSON.parse` maps well-formed JSON text to a value of the shape below
(duplicate keys resolved last-wins) and performs no schema validation;
the `as AnalysisResult` ascription in `analyzeAudio` is a static cast
with no runtime effect. Property access on a missing key yields
`undefined`, modelled as `none`. -/

/-- The schema language used by `responseSchema` in `analyzeAudio`
(geminiService lines 31-51): `Type.STRING`, `Type.ARRAY` with an item
schema, `Type.OBJECT` with typed properties and a list of required
keys. -/
inductive Schema where
  | string
  | array (items : Schema)
  | object (properties : List (String × Schema)) (required : List String)

/-- The item schema of `actionItems` (geminiService lines 38-45):
an object with string properties `task` and `assignee`, both required. -/
def actionItemSchema : Schema :=
  .object [("task", .string), ("assignee", .string)] ["task", "assignee"]

/-- The declared `responseSchema` (geminiService lines 31-51). -/
def responseSchema : Schema :=
  .object
    [("transcription", .string),
     ("executiveSummary", .string),
     ("actionItems", .array actionItemSchema),
     ("sentiment", .string),
     ("sentimentReasoning", .string)]
    ["transcription", "executiveSummary", "actionItems", "sentiment", "sentimentReasoning"]

/-- The base64 alphabet. -/
def base64Table : List Char :=
  "ABCDEFGHIJKLMNOPQRSTUVWXYZabcdefghijklmnopqrstuvwxyz0123456789+/".data

/-- The base64 digit for a 6-bit value. -/
def base64Digit (n : Nat) : Char := base64Table.getD n 'A'

/-- Standard base64 of a byte list, three bytes to four digits with `=`
padding; the masks are redundant for genuine bytes (below 256). -/
def base64EncodeList : List Nat → List Char
  | [] => []
  | [a] => [base64Digit (a / 4 % 64), base64Digit (a % 4 * 16), '=', '=']
  | [a, b] => [base64Digit (a / 4 % 64), base64Digit (a % 4 * 16 + b / 16 % 16),
               base64Digit (b % 16 * 4), '=']
  | a :: b :: c :: rest =>
      base64Digit (a / 4 % 64) :: base64Digit (a % 4 * 16 + b / 16 % 16) ::
      base64Digit (b % 16 * 4 + c / 64 % 4) :: base64Digit (c % 64) ::
      base64EncodeList rest

/-- Base64 of a byte list, as a string. -/
def base64String (bs : List Nat) : String := String.mk (base64EncodeList bs)

/-- The string `FileReader.readAsDataURL` delivers to `onload` for a
file: a header naming the blob MIME type (`application/octet-stream`
when the file reports none), then a comma, then the base64 contents. -/
def dataUrlOf (f : File) : String :=
  "data:" ++ (if f.type = "" then "application/octet-stream" else f.type)
    ++ ";base64," ++ base64String f.data

/-- A well-formed audio upload type: either empty (the browser could not
determine one; the code falls back to audio/mpeg) or an audio/* MIME
type; MIME types contain no comma. -/
def validAudioUpload (t : String) : Prop :=
  (t = "" ∨ "audio/".data.isPrefixOf t.data = true) ∧ ',' ∉ t.data

instance validAudioUploadDec (t : String) : Decidable (validAudioUpload t) := by
  unfold validAudioUpload
  infer_instance

/-! ## Concrete inputs used by counterexamples and witnesses -/

/-- A small accepted audio file. -/
def fileA : File := { name := "meeting.mp3", size := 3, type := "audio/mpeg", data := [77, 97, 110] }

/-- A file one byte over the 20 MiB ceiling. -/
def fileBig : File := { name := "big.mp3", size := 20 * 1024 * 1024 + 1, type := "audio/mpeg", data := [] }

/-- A successful analysis result. -/
def resultA : AnalysisResult :=
  { transcription := "hello",
    executiveSummary := "s",
    actionItems := [],
    sentiment := .Neutral,
    sentimentReasoning := "r" }

lemma mkData (l : List Char) : (String.mk l).data = l := rfl

lemma dataAppend (a b : String) : (a ++ b).data = a.data ++ b.data := by
  cases a; cases b; rfl

/-- Every handler of the application preserves `SysInv`. -/
lemma sysInv_step (s : Sys) (e : Event) (h : SysInv s) : SysInv (step s e) := by
  obtain ⟨h1, h2, h3, h4⟩ := h
  cases e with
  | select f =>
    simp only [step]
    split
    · split
      · exact ⟨by simp, by simp, h3, h4⟩
      · refine ⟨by simp, by simp, ?_, h4⟩
        intro g hg
        simp only [Option.some.injEq] at hg
        subst hg
        omega
    · exact ⟨h1, h2, h3, h4⟩
  | readDone dataUrl =>
    simp only [step]
    cases hpr : s.pendingRead with
    | none => exact ⟨h1, h2, h3, h4⟩
    | some f =>
      refine ⟨by simp, by simp, by simp, ?_⟩
      intro c hc
      rcases List.mem_append.mp hc with hm | hm
      · exact h4 c hm
      · simp only [List.mem_singleton] at hm
        subst hm
        exact h3 f hpr
  | readFail =>
    simp only [step]
    cases s.pendingRead with
    | none => exact ⟨h1, h2, h3, h4⟩
    | some f => exact ⟨h1, h2, by simp, h4⟩
  | inferOk r =>
    simp only [step]
    cases s.pendingInference with
    | none => exact ⟨h1, h2, h3, h4⟩
    | some c => exact ⟨by simp, by simp, h3, h4⟩
  | inferFail msg =>
    simp only [step]
    cases s.pendingInference with
    | none => exact ⟨h1, h2, h3, h4⟩
    | some c => exact ⟨h1, h2, h3, h4⟩
  | reset =>
    simp only [step]
    split
    · exact ⟨by simp, by simp, h3, h4⟩
    · exact ⟨h1, h2, h3, h4⟩

lemma sysInv_foldl : ∀ (evts : List Event) (s : Sys), SysInv s → SysInv (evts.foldl step s)
  | [], _, h => h
  | e :: evts, s, h => sysInv_foldl evts (step s e) (sysInv_step s e h)

lemma sysInv_initial : SysInv initialSys := by
  refine ⟨by simp [initialSys], by simp [initialSys], ?_, ?_⟩
  · intro f hf
    simp [initialSys] at hf
  · intro c hc
    simp [initialSys] at hc

lemma reachable_sysInv (s : Sys) (h : Reachable s) : SysInv s := by
  obtain ⟨evts, rfl⟩ := h
  exact sysInv_foldl evts initialSys sysInv_initial

lemma splitOnChar_ne_nil (sep : Char) (l : List Char) : splitOnChar sep l ≠ [] := by
  cases l with
  | nil => simp [splitOnChar]
  | cons c cs =>
    simp only [splitOnChar]
    rcases h : splitOnChar sep cs with _ | ⟨r, rs⟩
    · simp
    · dsimp only
      split <;> simp

lemma splitOnChar_no_sep (sep : Char) : ∀ (l : List Char), sep ∉ l → splitOnChar sep l = [l]
  | [], _ => rfl
  | c :: cs, h => by
    have hc : ¬ c = sep := fun hh => h (hh ▸ List.mem_cons_self c cs)
    have hcs : sep ∉ cs := fun hh => h (List.mem_cons_of_mem c hh)
    have ih := splitOnChar_no_sep sep cs hcs
    simp only [splitOnChar, ih]
    rw [if_neg hc]

lemma splitOnChar_append (sep : Char) : ∀ (a b : List Char), sep ∉ a →
    splitOnChar sep (a ++ sep :: b) = a :: splitOnChar sep b
  | [], b, _ => by
    simp only [List.nil_append, splitOnChar]
    rcases h : splitOnChar sep b with _ | ⟨r, rs⟩
    · exact absurd h (splitOnChar_ne_nil sep b)
    · simp
  | c :: a, b, h => by
    have hc : ¬ c = sep := fun hh => h (hh ▸ List.mem_cons_self c a)
    have ha : sep ∉ a := fun hh => h (List.mem_cons_of_mem c hh)
    have ih := splitOnChar_append sep a b ha
    simp only [List.cons_append, splitOnChar, List.append_eq, ih]
    rw [if_neg hc]

/-! ## Claim theorems -/

/-- C1: an empty-text model response does make `analyzeAudio` fail with
the EmptyResponse error ("No response from AI"), and the application
indeed never reaches COMPLETED — but contrary to the claim it never
reaches ERROR either: the rejection happens inside the asynchronous
`reader.onload` callback after the `try/catch` of `handleFileUpload`
has already returned, so the rejection is unhandled and the application
stays in ANALYZING with no error message set. This theorem evaluates
the code at the failing input: a small accepted file whose inference
call settles with the empty-response rejection. -/
theorem C1_empty_response_stuck :
    responseTextGate none = Except.error "No response from AI" ∧
    responseTextGate (some "") = Except.error "No response from AI" ∧
    (run [Event.select fileA, Event.readDone (dataUrlOf fileA),
          Event.inferFail "No response from AI"]).app.state = AppState.ANALYZING ∧
    (run [Event.select fileA, Event.readDone (dataUrlOf fileA),
          Event.inferFail "No response from AI"]).app.state ≠ AppState.COMPLETED ∧
    (run [Event.select fileA, Event.readDone (dataUrlOf fileA),
          Event.inferFail "No response from AI"]).app.state ≠ AppState.ERROR ∧
    (run [Event.select fileA, Event.readDone (dataUrlOf fileA),
          Event.inferFail "No response from AI"]).app.error = none := by
  refine ⟨rfl, rfl, ?_, ?_, ?_, ?_⟩ <;> decide

/-- C2: a failure of the file read does NOT surface as a generic read
error in the ERROR state. `reader.onerror` throws "Failed to read file"
from an event callback that runs after the `try/catch` of
`handleFileUpload` has exited, so the exception is uncaught: after a
read failure on an accepted file the application is still in UPLOADING
with no error message. Only the synchronous size check surfaces as
ERROR. -/
theorem C2_read_failure_uncaught :
    (run [Event.select fileA, Event.readFail]).app.state = AppState.UPLOADING ∧
    (run [Event.select fileA, Event.readFail]).app.state ≠ AppState.ERROR ∧
    (run [Event.select fileA, Event.readFail]).app.error = none := by decide

/-- C3 counterexample: the claimed iff invariant fails in reachable
states. After a completed analysis the Upload New File button only sets
the state tag to IDLE, leaving the result in place: a reachable state
has state = IDLE with a result present. Likewise Try Again after a size
error leaves the error message in place: a reachable state has
state = IDLE with an error present. -/
theorem C3_residual_state_cex :
    (run [Event.select fileA, Event.readDone (dataUrlOf fileA),
          Event.inferOk resultA, Event.reset]).app.state = AppState.IDLE ∧
    (run [Event.select fileA, Event.readDone (dataUrlOf fileA),
          Event.inferOk resultA, Event.reset]).app.result = some resultA ∧
    (run [Event.select fileBig, Event.reset]).app.state = AppState.IDLE ∧
    (run [Event.select fileBig, Event.reset]).app.error = some sizeErrorMsg := by decide

/-- C3 amended: in every reachable state, COMPLETED implies a result is
present and ERROR implies an error message is present; and at the
presentation layer the iff does hold — a result is rendered exactly in
COMPLETED and an error text exactly in ERROR. The stored fields
themselves are not cleared by the reset handlers, so the claimed
state-level iff fails (see the counterexample). -/
theorem C3_amended_invariant (s : Sys) (h : Reachable s) :
    (s.app.state = AppState.COMPLETED → s.app.result.isSome = true) ∧
    (s.app.state = AppState.ERROR → s.app.error.isSome = true) ∧
    ((render s.app).showsResult.isSome = true ↔ s.app.state = AppState.COMPLETED) ∧
    ((render s.app).showsError.isSome = true ↔ s.app.state = AppState.ERROR) := by
  obtain ⟨h1, h2, _, _⟩ := reachable_sysInv s h
  refine ⟨h1, h2, ?_, ?_⟩
  · constructor
    · intro hr
      by_contra hc
      simp [render, hc] at hr
    · intro hc
      simp only [render, if_pos hc]
      exact h1 hc
  · constructor
    · intro hr
      by_contra hc
      simp [render, hc] at hr
    · intro hc
      simp only [render, if_pos hc]
      exact h2 hc

/-- Witness for C3 amended at the reachable initial state. -/
theorem C3_amended_invariant_witness :
    Reachable initialSys ∧
    ((initialSys.app.state = AppState.COMPLETED → initialSys.app.result.isSome = true) ∧
     (initialSys.app.state = AppState.ERROR → initialSys.app.error.isSome = true) ∧
     ((render initialSys.app).showsResult.isSome = true ↔ initialSys.app.state = AppState.COMPLETED) ∧
     ((render initialSys.app).showsError.isSome = true ↔ initialSys.app.state = AppState.ERROR)) :=
  ⟨⟨[], rfl⟩, C3_amended_invariant initialSys ⟨[], rfl⟩⟩

/-- C4: Try Again from an ERROR state sets the state tag to IDLE, and in
IDLE the presentation (a pure function of the component state) shows no
file name, no error message and no result. The stored fields are not
cleared (see C3), but none of them is visible after the reset. -/
theorem C4_try_again_resets (s : Sys) (h : s.app.state = AppState.ERROR) :
    (step s Event.reset).app.state = AppState.IDLE ∧
    render (step s Event.reset).app
      = { showsError := none, showsResult := none, showsFileName := none } := by
  have hstep : step s Event.reset = { s with app := { s.app with state := AppState.IDLE } } := by
    simp [step, h]
  rw [hstep]
  exact ⟨rfl, by simp [render]⟩

/-- Witness for C4 at a concrete reachable ERROR state (after an
oversized selection). -/
theorem C4_try_again_resets_witness :
    (run [Event.select fileBig]).app.state = AppState.ERROR ∧
    ((step (run [Event.select fileBig]) Event.reset).app.state = AppState.IDLE ∧
     render (step (run [Event.select fileBig]) Event.reset).app
       = { showsError := none, showsResult := none, showsFileName := none }) :=
  ⟨by decide, C4_try_again_resets (run [Event.select fileBig]) (by decide)⟩

/-- C5: selecting a file strictly larger than 20 * 1024 * 1024 bytes
from IDLE moves the application to ERROR with the size error message,
starts no read, and issues no inference call; moreover in any reachable
system every inference call ever issued was for a file within the
limit, so the inference client is never invoked for an oversized
file. -/
theorem C5_size_limit (s : Sys) (f : File) (hr : Reachable s)
    (hs : s.app.state = AppState.IDLE) (hf : f.size > 20 * 1024 * 1024) :
    (step s (Event.select f)).app.state = AppState.ERROR ∧
    (step s (Event.select f)).app.error = some sizeErrorMsg ∧
    (step s (Event.select f)).pendingRead = s.pendingRead ∧
    (step s (Event.select f)).inferenceCalls = s.inferenceCalls ∧
    ∀ c ∈ (step s (Event.select f)).inferenceCalls, c.file.size ≤ 20 * 1024 * 1024 := by
  obtain ⟨_, _, _, h4⟩ := reachable_sysInv s hr
  have hstep : step s (Event.select f)
      = { s with app := { s.app with error := some sizeErrorMsg, state := AppState.ERROR } } := by
    simp [step, hs, hf]
  rw [hstep]
  exact ⟨rfl, rfl, rfl, rfl, h4⟩

/-- Witness for C5: the oversized selection from the initial state. -/
theorem C5_size_limit_witness :
    Reachable initialSys ∧ initialSys.app.state = AppState.IDLE ∧
    fileBig.size > 20 * 1024 * 1024 ∧
    ((step initialSys (Event.select fileBig)).app.state = AppState.ERROR ∧
     (step initialSys (Event.select fileBig)).app.error = some sizeErrorMsg ∧
     (step initialSys (Event.select fileBig)).pendingRead = initialSys.pendingRead ∧
     (step initialSys (Event.select fileBig)).inferenceCalls = initialSys.inferenceCalls ∧
     ∀ c ∈ (step initialSys (Event.select fileBig)).inferenceCalls,
       c.file.size ≤ 20 * 1024 * 1024) :=
  ⟨⟨[], rfl⟩, rfl, by decide, C5_size_limit initialSys fileBig ⟨[], rfl⟩ rfl (by decide)⟩

lemma base64Digit_ne_comma (n : Nat) : base64Digit n ≠ ',' := by
  simp only [base64Digit, List.getD]
  rcases h : base64Table.get? n with _ | x
  · decide
  · have hx : x ∈ base64Table := List.get?_mem h
    simp only [Option.getD_some]
    intro hc
    rw [hc] at hx
    exact absurd hx (by decide)

lemma base64EncodeList_no_comma : ∀ (bs : List Nat), ',' ∉ base64EncodeList bs
  | [] => by simp [base64EncodeList]
  | [a] => by
    intro hmem
    simp only [base64EncodeList, List.mem_cons, List.not_mem_nil, or_false] at hmem
    rcases hmem with h | h | h | h
    · exact base64Digit_ne_comma _ h.symm
    · exact base64Digit_ne_comma _ h.symm
    · exact absurd h (by decide)
    · exact absurd h (by decide)
  | [a, b] => by
    intro hmem
    simp only [base64EncodeList, List.mem_cons, List.not_mem_nil, or_false] at hmem
    rcases hmem with h | h | h | h
    · exact base64Digit_ne_comma _ h.symm
    · exact base64Digit_ne_comma _ h.symm
    · exact base64Digit_ne_comma _ h.symm
    · exact absurd h (by decide)
  | a :: b :: c :: rest => by
    intro hmem
    simp only [base64EncodeList, List.mem_cons] at hmem
    rcases hmem with h | h | h | h | h
    · exact base64Digit_ne_comma _ h.symm
    · exact base64Digit_ne_comma _ h.symm
    · exact base64Digit_ne_comma _ h.symm
    · exact base64Digit_ne_comma _ h.symm
    · exact base64EncodeList_no_comma rest h

/-- On the data URL the browser delivers for a file with a comma-free
MIME type, `split(',')[1]` is exactly the base64 of the file bytes. -/
lemma dataUrl_split (f : File) (hmime : ',' ∉ f.type.data) :
    (splitOnChar ',' (dataUrlOf f).data).get? 1 = some (base64EncodeList f.data) := by
  have hdata : (dataUrlOf f).data
      = ("data:".data ++ ((if f.type = "" then "application/octet-stream" else f.type).data
          ++ ";base64".data)) ++ ',' :: base64EncodeList f.data := by
    simp only [dataUrlOf, dataAppend]
    simp [base64String, mkData, List.append_assoc, List.cons_append]
  have hnosep : ',' ∉ ("data:".data ++ ((if f.type = "" then "application/octet-stream" else f.type).data
      ++ ";base64".data)) := by
    intro hmem
    rcases List.mem_append.mp hmem with h | hmem
    · exact absurd h (by decide)
    rcases List.mem_append.mp hmem with h | h
    · split at h
      · exact absurd h (by decide)
      · exact hmime h
    · exact absurd h (by decide)
  rw [hdata, splitOnChar_append ',' _ _ hnosep,
      splitOnChar_no_sep ',' _ (base64EncodeList_no_comma f.data)]
  rfl

/-- C6: selecting an accepted file (size within the limit, valid or
empty audio MIME type) from IDLE moves the application to UPLOADING at
once, records the file name and clears the error; when the encoding
completes, the application moves to ANALYZING and issues exactly one
inference call carrying the base64 of the file contents and the MIME
type with the audio/mpeg fallback for an empty browser-reported type. -/
theorem C6_ingestion_success (s : Sys) (f : File) (hs : s.app.state = AppState.IDLE)
    (hsize : f.size < 20 * 1024 * 1024) (hmime : validAudioUpload f.type) :
    (step s (Event.select f)).app.state = AppState.UPLOADING ∧
    (step s (Event.select f)).app.fileName = some f.name ∧
    (step s (Event.select f)).app.error = none ∧
    (step (step s (Event.select f)) (Event.readDone (dataUrlOf f))).app.state
      = AppState.ANALYZING ∧
    (step (step s (Event.select f)) (Event.readDone (dataUrlOf f))).inferenceCalls
      = s.inferenceCalls
        ++ [{ file := f, data := some (base64String f.data),
              mimeType := if f.type = "" then "audio/mpeg" else f.type }] := by
  have hnot : ¬ f.size > 20 * 1024 * 1024 := by omega
  have h1 : step s (Event.select f)
      = { s with
            app := { s.app with fileName := some f.name, state := AppState.UPLOADING, error := none },
            pendingRead := some f } := by
    simp [step, hs, hnot]
  have hsplit := dataUrl_split f hmime.2
  refine ⟨by rw [h1], by rw [h1], by rw [h1], ?_, ?_⟩
  · rw [h1]
    simp only [step]
  · rw [h1]
    simp only [step, hsplit, Option.map_some]
    rfl

/-- Witness for C6 at the concrete accepted file. -/
theorem C6_ingestion_success_witness :
    (initialSys.app.state = AppState.IDLE ∧ fileA.size < 20 * 1024 * 1024 ∧
     validAudioUpload fileA.type) ∧
    ((step initialSys (Event.select fileA)).app.state = AppState.UPLOADING ∧
     (step initialSys (Event.select fileA)).app.fileName = some fileA.name ∧
     (step initialSys (Event.select fileA)).app.error = none ∧
     (step (step initialSys (Event.select fileA)) (Event.readDone (dataUrlOf fileA))).app.state
       = AppState.ANALYZING ∧
     (step (step initialSys (Event.select fileA)) (Event.readDone (dataUrlOf fileA))).inferenceCalls
       = initialSys.inferenceCalls
         ++ [{ file := fileA, data := some (base64String fileA.data),
               mimeType := if fileA.type = "" then "audio/mpeg" else fileA.type }]) :=
  ⟨⟨rfl, by decide, by decide⟩,
   C6_ingestion_success initialSys fileA rfl (by decide) (by decide)⟩

/-- C8 counterexample: `split('.')[0]` truncates at the first dot, not
at the extension. For the name "a.b.mp3" the code produces
"a_report.md" while basename + "_report.md" would be "a.b_report.md". -/
theorem C8_first_dot_cex :
    downloadName (some "a.b.mp3") = "a_report.md" ∧
    spec_basename "a.b.mp3" ++ "_report.md" = "a.b_report.md" ∧
    ("a_report.md" : String) ≠ "a.b_report.md" := by
  refine ⟨?_, ?_, ?_⟩ <;> decide

/-- C8 amended: for a file name of the form stem.ext where the stem is
nonempty and neither stem nor extension contains a further dot, the
download name agrees with basename + "_report.md"; in particular
"meeting.mp3" yields "meeting_report.md" (see the witness). Names with
more than one dot are truncated at the first dot instead (see the
counterexample). -/
theorem C8_amended_first_dot (stem ext : List Char) (h1 : stem ≠ [])
    (h2 : '.' ∉ stem) (h3 : '.' ∉ ext) :
    downloadName (some (String.mk (stem ++ '.' :: ext))) = String.mk stem ++ "_report.md" ∧
    spec_basename (String.mk (stem ++ '.' :: ext)) = String.mk stem := by
  have hsplit : splitOnChar '.' (stem ++ '.' :: ext) = stem :: [ext] := by
    rw [splitOnChar_append '.' stem ext h2, splitOnChar_no_sep '.' ext h3]
  constructor
  · simp only [downloadName, mkData, hsplit, List.headD_cons]
    rw [if_neg h1]
  · simp only [spec_basename, mkData, hsplit]
    simp [List.intercalate]

/-- Witness for C8 amended at the name "meeting.mp3". -/
theorem C8_amended_first_dot_witness :
    ("meeting".data ≠ [] ∧ '.' ∉ "meeting".data ∧ '.' ∉ "mp3".data) ∧
    downloadName (some (String.mk ("meeting".data ++ '.' :: "mp3".data)))
        = String.mk "meeting".data ++ "_report.md" ∧
    spec_basename (String.mk ("meeting".data ++ '.' :: "mp3".data)) = String.mk "meeting".data :=
  ⟨by decide, C8_amended_first_dot "meeting".data "mp3".data (by decide) (by decide) (by decide)⟩

lemma dropWhile_append_cons (p : Char → Bool) (Y X : List Char) (c : Char) (hc : p c = false) :
    List.dropWhile p (Y ++ c :: X) = List.dropWhile p Y ++ c :: X := by
  induction Y with
  | nil => simp [List.dropWhile_cons, hc]
  | cons y Y ih =>
    simp only [List.cons_append, List.dropWhile_cons]
    cases hpy : p y <;> simp [hpy, ih]

/-- Trimming a string of the shape newline, hash sign, middle ending in
the letter n, tail: the leading newline goes, the trailing trim only
eats into the tail. -/
lemma jsTrimChars_shape (M B : List Char) :
    jsTrimChars ('\n' :: (('#' :: (M ++ ['n'])) ++ B))
      = ('#' :: (M ++ ['n'])) ++ (List.dropWhile isJsWs B.reverse).reverse := by
  have w1 : isJsWs '\n' = true := by decide
  have w2 : isJsWs '#' = false := by decide
  have w3 : isJsWs 'n' = false := by decide
  unfold jsTrimChars
  have hfull : ('\n' :: (('#' :: (M ++ ['n'])) ++ B)) = '\n' :: '#' :: ((M ++ ['n']) ++ B) := by
    simp
  have hlead : List.dropWhile isJsWs ('\n' :: '#' :: ((M ++ ['n']) ++ B))
      = '#' :: ((M ++ ['n']) ++ B) := by
    rw [List.dropWhile_cons, if_pos w1, List.dropWhile_cons, if_neg (by simp [w2])]
  have hrev1 : ('#' :: ((M ++ ['n']) ++ B)).reverse
      = B.reverse ++ 'n' :: (M.reverse ++ ['#']) := by
    simp [List.reverse_cons, List.reverse_append, List.append_assoc]
  have hdrop := dropWhile_append_cons isJsWs B.reverse (M.reverse ++ ['#']) 'n' w3
  rw [hfull, hlead, hrev1, hdrop]
  simp [List.reverse_append, List.reverse_cons, List.append_assoc]

lemma containsInOrder_cons (x h t : List Char) (rest : List (List Char))
    (hc : ContainsInOrder t rest) : ContainsInOrder (x ++ (h ++ t)) (h :: rest) :=
  ⟨x, t, (List.append_assoc x h t).symm, hc⟩

/-- The trimmed report template contains the four section headings in
order, whatever the interpolated pieces are. -/
lemma template_contains (fn es st sr its tr : String) :
    ContainsInOrder
      (jsTrim ("\n# Audio Analysis: " ++ fn
        ++ "\n\n## Executive Summary\n" ++ es
        ++ "\n\n## Sentiment Analysis\n**Tone:** " ++ st
        ++ "\n**Reasoning:** " ++ sr
        ++ "\n\n## Action Items\n" ++ its
        ++ "\n\n## Full Transcription\n" ++ tr
        ++ "\n    ")).data
      ["## Executive Summary".data, "## Sentiment Analysis".data,
       "## Action Items".data, "## Full Transcription".data] := by
  have hbig : ("\n# Audio Analysis: " ++ fn
        ++ "\n\n## Executive Summary\n" ++ es
        ++ "\n\n## Sentiment Analysis\n**Tone:** " ++ st
        ++ "\n**Reasoning:** " ++ sr
        ++ "\n\n## Action Items\n" ++ its
        ++ "\n\n## Full Transcription\n" ++ tr
        ++ "\n    ").data
      = '\n' :: (('#' ::
          ((" Audio Analysis: ".data ++ fn.data
            ++ "\n\n## Executive Summary\n".data ++ es.data
            ++ "\n\n## Sentiment Analysis\n**Tone:** ".data ++ st.data
            ++ "\n**Reasoning:** ".data ++ sr.data
            ++ "\n\n## Action Items\n".data ++ its.data
            ++ "\n\n## Full Transcriptio".data) ++ ['n']))
        ++ ('\n' :: (tr.data ++ "\n    ".data))) := by
    simp only [dataAppend]
    simp [List.append_assoc, List.cons_append]
  simp only [jsTrim, mkData]
  rw [hbig, jsTrimChars_shape]
  have hshape : ('#' ::
        ((" Audio Analysis: ".data ++ fn.data
          ++ "\n\n## Executive Summary\n".data ++ es.data
          ++ "\n\n## Sentiment Analysis\n**Tone:** ".data ++ st.data
          ++ "\n**Reasoning:** ".data ++ sr.data
          ++ "\n\n## Action Items\n".data ++ its.data
          ++ "\n\n## Full Transcriptio".data) ++ ['n']))
      ++ (List.dropWhile isJsWs ('\n' :: (tr.data ++ "\n    ".data)).reverse).reverse
      = ('#' :: (" Audio Analysis: ".data ++ fn.data ++ "\n\n".data))
        ++ ("## Executive Summary".data
        ++ (("\n".data ++ es.data ++ "\n\n".data)
        ++ ("## Sentiment Analysis".data
        ++ (("\n**Tone:** ".data ++ st.data ++ "\n**Reasoning:** ".data ++ sr.data ++ "\n\n".data)
        ++ ("## Action Items".data
        ++ (("\n".data ++ its.data ++ "\n\n".data)
        ++ ("## Full Transcription".data
        ++ (List.dropWhile isJsWs ('\n' :: (tr.data ++ "\n    ".data)).reverse).reverse))))))) := by
    simp [List.append_assoc, List.cons_append]
  rw [hshape]
  exact containsInOrder_cons _ _ _ _ (containsInOrder_cons _ _ _ _
    (containsInOrder_cons _ _ _ _ (containsInOrder_cons _ _ _ _ trivial)))

/-- C9: for every file name and analysis result, the exported Markdown
body contains the four section headings — Executive Summary, Sentiment
Analysis, Action Items, Full Transcription — in this order. -/
theorem C9_markdown_headings (fileName : Option String) (r : AnalysisResult) :
    ContainsInOrder (markdownContent fileName r).data
      ["## Executive Summary".data, "## Sentiment Analysis".data,
       "## Action Items".data, "## Full Transcription".data] := by
  have h := template_contains (jsTemplate fileName) r.executiveSummary (sentimentText r.sentiment)
    r.sentimentReasoning
    (String.intercalate "\n"
      (r.actionItems.map (fun item =>
        "- [ ] **" ++ item.task ++ "** (Assignee: " ++ item.assignee ++ ")")))
    r.transcription
  exact h

/-- C10: invoking `downloadMarkdown` with no result present returns
immediately: no download is triggered and the component state is
returned unchanged. -/
theorem C10_export_noop (app : AppComponent) (h : app.result = none) :
    downloadMarkdown app = (app, none) := by
  simp [downloadMarkdown, h]

/-- Witness for C10 at the initial component state. -/
theorem C10_export_noop_witness :
    initialSys.app.result = none ∧
    downloadMarkdown initialSys.app = (initialSys.app, none) :=
  ⟨rfl, C10_export_noop initialSys.app rfl⟩

end ZMM
